import Mathlib

/-!
Verification of the tick-data pipeline and backtest metrics of the
rust-trade repository, as a shallow embedding in Lean 4.

Conventions of the embedding:
- fixed-point decimals (rust_decimal::Decimal) are modelled as Rat;
- UTC instants are modelled as Int (seconds or milliseconds are never
  mixed inside a single claim);
- f64 values are modelled as real numbers;
- the PostgreSQL tick_data table is modelled as a List TickData, an
  INSERT with conflict-ignore over the key (symbol, trade_id, timestamp)
  is modelled by an append guarded by a key lookup, and a SELECT with
  ORDER BY timestamp DESC LIMIT n is modelled by sorting with a
  descending relation and taking n elements;
- fallible repository operations return Except paired with the store
  they leave behind, so that untouched stores are expressed directly;
- external library functions (the decimal string parser of rust_decimal
  and the millisecond timestamp constructor of chrono) enter as
  function parameters of the definitions that call them.
-/

-- =================================================================
-- Shared data model (tick records, data errors)
-- =================================================================

/-- Modelled from the spec: data/types.rs is not part of the sources,
so the trade-side enum follows section 3 of the spec and the database
column contract (BUY or SELL). -/
inductive TradeSide where
  | Buy
  | Sell
  deriving DecidableEq, Repr

/-- Modelled from the spec: data/types.rs is not part of the sources,
so the canonical tick record follows section 3 and section 6 of the
spec and the field accesses made by the repository code. -/
structure TickData where
  timestamp : Int
  symbol : String
  price : Rat
  quantity : Rat
  side : TradeSide
  trade_id : String
  is_buyer_maker : Bool
  deriving DecidableEq, Repr

/-- Modelled from the spec: data/types.rs is not part of the sources;
the error cases mirror the constructors used by repository.rs. -/
inductive DataError where
  | Validation (msg : String)
  | Database (msg : String)
  | InvalidFormat (msg : String)
  deriving DecidableEq, Repr

deriving instance DecidableEq for Except

/-- The conflict key of the tick_data table: (symbol, trade_id, timestamp). -/
def tickKey (t : TickData) : String × String × Int :=
  (t.symbol, t.trade_id, t.timestamp)

/-- Recognizes a validation failure among repository results. -/
def isValidationFailure {α : Type} : Except DataError α → Bool
  | Except.error (DataError.Validation _) => true
  | _ => false

-- =================================================================
-- C1: TickDataRepository::validate_tick_data and insert_tick
-- (src/trading-core/src/data/repository.rs lines 52-89 and 547-565)
-- =================================================================

/-- Embedding of TickDataRepository::validate_tick_data. -/
def validate_tick_data (tick : TickData) : Except DataError Unit :=
  if tick.symbol = "" then Except.error (DataError.Validation ("Symbol cannot be empty"))
  else if tick.price ≤ 0 then Except.error (DataError.Validation ("Price must be positive"))
  else if tick.quantity ≤ 0 then Except.error (DataError.Validation ("Quantity must be positive"))
  else if tick.trade_id = "" then Except.error (DataError.Validation ("Trade ID cannot be empty"))
  else Except.ok ()

/-- One INSERT ... ON CONFLICT (symbol, trade_id, timestamp) DO NOTHING
against the modelled store. -/
def dbInsertIgnore (store : List TickData) (tick : TickData) : List TickData :=
  if store.any (fun s => decide (tickKey s = tickKey tick)) then store
  else store ++ [tick]

/-- Embedding of TickDataRepository::insert_tick, assuming the database
statement itself succeeds. Returns the call result and the store left
behind. The best-effort cache push after the insert cannot fail the
operation and does not touch the store, so it is omitted here. -/
def insert_tick (store : List TickData) (tick : TickData) :
    Except DataError Unit × List TickData :=
  match validate_tick_data tick with
  | Except.error e => (Except.error e, store)
  | Except.ok _ => (Except.ok (), dbInsertIgnore store tick)

-- =================================================================
-- C2: TickDataRepository::get_recent_ticks_for_backtest
-- (src/trading-core/src/data/repository.rs lines 313-357)
-- =================================================================

/-- The descending timestamp relation of ORDER BY timestamp DESC. -/
def tickDescLE (a b : TickData) : Prop := b.timestamp ≤ a.timestamp

instance : DecidableRel tickDescLE := fun a b => by
  unfold tickDescLE
  infer_instance

instance : IsTotal TickData tickDescLE :=
  ⟨fun a b => le_total b.timestamp a.timestamp⟩

instance : IsTrans TickData tickDescLE :=
  ⟨fun _ _ _ hab hbc => le_trans hbc hab⟩

/-- The constant MAX_QUERY_LIMIT of repository.rs. -/
def MAX_QUERY_LIMIT : Nat := 10000

/-- The ticks of the modelled store carrying the requested symbol
(the WHERE clause of the SELECT). -/
def matchingTicks (db : List TickData) (symbol : String) : List TickData :=
  db.filter (fun t => decide (t.symbol = symbol))

/-- The result set of the SELECT before LIMIT: the matching ticks in
timestamp-descending order. -/
def backtestRows (db : List TickData) (symbol : String) : List TickData :=
  (matchingTicks db symbol).insertionSort tickDescLE

/-- Embedding of TickDataRepository::get_recent_ticks_for_backtest over
a modelled store: the SELECT filters the symbol, orders by timestamp
descending and limits to min count MAX_QUERY_LIMIT, and the code then
reverses the rows into chronological order. -/
def get_recent_ticks_for_backtest (db : List TickData) (symbol : String) (count : Nat) :
    List TickData :=
  (((backtestRows db symbol).take (min count MAX_QUERY_LIMIT))).reverse

-- =================================================================
-- C3: TickDataRepository::batch_insert and batch_insert_chunk
-- (src/trading-core/src/data/repository.rs lines 92-151)
-- =================================================================

/-- The constant MAX_BATCH_SIZE of repository.rs. -/
def MAX_BATCH_SIZE : Nat := 1000

/-- The validation loop at the start of batch_insert: the first failing
element aborts the call. -/
def validate_all : List TickData → Except DataError Unit
  | [] => Except.ok ()
  | t :: ts =>
    match validate_tick_data t with
    | Except.error e => Except.error e
    | Except.ok _ => validate_all ts

/-- One row of the multi-row INSERT of batch_insert_chunk: skipped when
its key conflicts with a row already in the store (ON CONFLICT DO
NOTHING), otherwise appended and counted in rows_affected. -/
def insStep (acc : Nat × List TickData) (t : TickData) : Nat × List TickData :=
  if acc.2.any (fun s => decide (tickKey s = tickKey t)) then acc
  else (acc.1 + 1, acc.2 ++ [t])

/-- Embedding of TickDataRepository::batch_insert_chunk: a single
conflict-ignoring multi-row INSERT, returning rows_affected and the
store left behind. -/
def batch_insert_chunk (store : List TickData) (chunk : List TickData) : Nat × List TickData :=
  chunk.foldl insStep (0, store)

/-- The chunking done by Vec::chunks(n) for a positive chunk size. -/
def chunksOf (n : Nat) (l : List TickData) : List (List TickData) :=
  if _h : l = [] ∨ n = 0 then []
  else l.take n :: chunksOf n (l.drop n)
termination_by l.length
decreasing_by
  simp only [not_or] at _h
  have h1 : 0 < l.length := List.length_pos.mpr _h.1
  have h2 : 0 < n := Nat.pos_of_ne_zero _h.2
  simp only [List.length_drop]
  omega

/-- The per-chunk body of the loop of batch_insert: insert the chunk and
accumulate its rows_affected into the running total. -/
def chunkStep (acc : Nat × List TickData) (chunk : List TickData) : Nat × List TickData :=
  (acc.1 + (batch_insert_chunk acc.2 chunk).1, (batch_insert_chunk acc.2 chunk).2)

/-- Embedding of TickDataRepository::batch_insert, assuming each INSERT
statement itself succeeds: empty input short-circuits, every tick is
validated before any write, then the ticks are inserted chunk by chunk
and the total of rows actually inserted is returned. -/
def batch_insert (store : List TickData) (ticks : List TickData) :
    Except DataError Nat × List TickData :=
  if ticks = [] then (Except.ok 0, store)
  else
    match validate_all ticks with
    | Except.error e => (Except.error e, store)
    | Except.ok _ =>
      let r := (chunksOf MAX_BATCH_SIZE ticks).foldl chunkStep (0, store)
      (Except.ok r.1, r.2)

-- =================================================================
-- C4: MetricsCalculator::calculate_sharpe_ratio
-- (src/trading-core/src/backtest/metrics.rs lines 177-193)
-- =================================================================

/-- Embedding of MetricsCalculator::calculate_sharpe_ratio with f64
modelled as the real numbers; the local variables mean_return and
volatility of the code are inlined. The code takes the square root of
the raw sum of squared deviations (without dividing by the number of
returns), multiplies it by sqrt 252, and divides the annualized mean
minus the risk-free rate by it. -/
noncomputable def calculate_sharpe_ratio (risk_free_rate : ℝ) (returns : List ℝ) : ℝ :=
  if returns = [] then 0
  else if Real.sqrt ((returns.map
        (fun r => (r - returns.sum / (returns.length : ℝ)) ^ 2)).sum) * Real.sqrt 252 = 0 then 0
  else (returns.sum / (returns.length : ℝ) * 252 - risk_free_rate)
        / (Real.sqrt ((returns.map
            (fun r => (r - returns.sum / (returns.length : ℝ)) ^ 2)).sum) * Real.sqrt 252)

/-- Modelled from the spec: the Sharpe ratio as the claim states it,
namely (mean - risk_free) / stddev of the per-period returns,
annualized by sqrt 252, and 0 for empty or zero-variance inputs; the
standard deviation divides the squared deviations by the number of
returns before the square root. -/
noncomputable def sharpe_claimed (risk_free_rate : ℝ) (returns : List ℝ) : ℝ :=
  if returns = [] then 0
  else if Real.sqrt (((returns.map
        (fun r => (r - returns.sum / (returns.length : ℝ)) ^ 2)).sum)
          / (returns.length : ℝ)) = 0 then 0
  else (returns.sum / (returns.length : ℝ) - risk_free_rate)
        / Real.sqrt (((returns.map
            (fun r => (r - returns.sum / (returns.length : ℝ)) ^ 2)).sum)
              / (returns.length : ℝ)) * Real.sqrt 252

-- =================================================================
-- C5: MetricsCalculator::analyze_trades and calculate_profit_factor
-- (src/trading-core/src/backtest/metrics.rs lines 64-93 and 161-175)
-- =================================================================

/-- The order side enum of backtest/types.rs. -/
inductive OrderSide where
  | Buy
  | Sell
  deriving DecidableEq, Repr

/-- The executed trade record of backtest/types.rs (no realized-PnL
field exists on it). -/
structure Trade where
  symbol : String
  side : OrderSide
  quantity : Rat
  price : Rat
  timestamp : Int
  commission : Rat
  deriving DecidableEq, Repr

/-- The loop state of analyze_trades: the per-symbol position map of
(quantity, average price) pairs and the two classified trade lists. -/
structure AnalyzeState where
  position_map : String → Option (Rat × Rat)
  profit_trades : List Trade
  loss_trades : List Trade

/-- One iteration of the loop of MetricsCalculator::analyze_trades: a
buy folds the trade into the weighted-average position entry, a sell is
classified as profit when its price exceeds the stored average price;
sells never modify the position map. -/
def analyzeStep (st : AnalyzeState) (trade : Trade) : AnalyzeState :=
  match trade.side with
  | OrderSide.Buy =>
    let qa := (st.position_map trade.symbol).getD (0, 0)
    let avg2 := (qa.2 * qa.1 + trade.price * trade.quantity) / (qa.1 + trade.quantity)
    let qty2 := qa.1 + trade.quantity
    { st with position_map :=
        fun s => if s = trade.symbol then some (qty2, avg2) else st.position_map s }
  | OrderSide.Sell =>
    match st.position_map trade.symbol with
    | some qa =>
      if qa.2 < trade.price then { st with profit_trades := st.profit_trades ++ [trade] }
      else { st with loss_trades := st.loss_trades ++ [trade] }
    | none => st

/-- Embedding of MetricsCalculator::analyze_trades. -/
def analyze_trades (trades : List Trade) : List Trade × List Trade :=
  let fin := trades.foldl analyzeStep ⟨fun _ => none, [], []⟩
  (fin.profit_trades, fin.loss_trades)

/-- Decimal::MAX of rust_decimal. -/
def decimalMAX : Rat := 79228162514264337593543950335

/-- Embedding of MetricsCalculator::calculate_profit_factor. -/
def calculate_profit_factor (profit_trades loss_trades : List Trade) : Rat :=
  let total_profit := (profit_trades.map (fun t => (t.price - t.commission) * t.quantity)).sum
  let total_loss := (loss_trades.map (fun t => (t.price + t.commission) * t.quantity)).sum
  if total_loss = 0 then (if total_profit = 0 then 1 else decimalMAX)
  else total_profit / total_loss

/-- The profit factor as the code computes it end to end. -/
def profit_factor (trades : List Trade) : Rat :=
  calculate_profit_factor (analyze_trades trades).1 (analyze_trades trades).2

/-- Modelled from the spec: the realized PnL log of the portfolio
semantics of section 4.7 of the spec (backtest/engine.rs holds the
portfolio but the claim only needs the PnL values): buys update a
weighted-average entry, each sell realizes
(price - average_entry) * quantity - commission and reduces the
position, which is removed at zero quantity. -/
def specPnlStep (st : (String → Option (Rat × Rat)) × List Rat) (t : Trade) :
    (String → Option (Rat × Rat)) × List Rat :=
  match t.side with
  | OrderSide.Buy =>
    let qa := (st.1 t.symbol).getD (0, 0)
    let avg2 := (qa.2 * qa.1 + t.price * t.quantity) / (qa.1 + t.quantity)
    let qty2 := qa.1 + t.quantity
    (fun s => if s = t.symbol then some (qty2, avg2) else st.1 s, st.2)
  | OrderSide.Sell =>
    match st.1 t.symbol with
    | some qa =>
      let pnl := (t.price - qa.2) * t.quantity - t.commission
      let q2 := qa.1 - t.quantity
      (fun s => if s = t.symbol then (if q2 = 0 then none else some (q2, qa.2)) else st.1 s,
        st.2 ++ [pnl])
    | none => st

/-- Modelled from the spec: the realized PnL values of a trade log. -/
def realized_pnls (trades : List Trade) : List Rat :=
  (trades.foldl specPnlStep (fun _ => none, [])).2

/-- Modelled from the spec: the profit factor as the claim states it,
namely the sum of positive realized PnL over the absolute value of the
sum of negative realized PnL, 1 when both sums are zero, and none
standing for positive infinity when only the losses are zero. -/
def profit_factor_claimed (trades : List Trade) : Option Rat :=
  let pnls := realized_pnls trades
  let pos := (pnls.filter (fun p => decide (0 < p))).sum
  let neg := (pnls.filter (fun p => decide (p < 0))).sum
  if pos = 0 ∧ neg = 0 then some 1
  else if neg = 0 then none
  else some (pos / |neg|)

/-- The quantity held in the position map of analyze_trades: the sum of
the quantities of all earlier buys of the symbol (sells never reduce
it). -/
def buyQty (pre : List Trade) (symbol : String) : Rat :=
  ((pre.filter (fun t => decide (t.side = OrderSide.Buy ∧ t.symbol = symbol))).map
    (fun t => t.quantity)).sum

/-- The cost accumulated in the position map of analyze_trades: the sum
of price * quantity over all earlier buys of the symbol. -/
def buyCost (pre : List Trade) (symbol : String) : Rat :=
  ((pre.filter (fun t => decide (t.side = OrderSide.Buy ∧ t.symbol = symbol))).map
    (fun t => t.price * t.quantity)).sum

/-- Closed-form classification of the sells of a trade log: given the
trades already processed, a sell with at least one earlier buy of its
symbol is a winner when its price exceeds the average cost of all
earlier buys (stated multiplicatively), otherwise a loser; sells with
no earlier buy are dropped. -/
def sellsClassified : List Trade → List Trade → List Trade × List Trade
  | _, [] => ([], [])
  | pre, t :: ts =>
    let rest := sellsClassified (pre ++ [t]) ts
    match t.side with
    | OrderSide.Buy => rest
    | OrderSide.Sell =>
      if 0 < buyQty pre t.symbol then
        if buyCost pre t.symbol < t.price * buyQty pre t.symbol then (t :: rest.1, rest.2)
        else (rest.1, t :: rest.2)
      else rest

/-- The trade log of the C5 counterexample: buy 1 at 10, sell 1 at 12,
buy 1 at 10, sell 1 at 9, all in one symbol with zero commission. -/
def c5trades : List Trade :=
  [⟨"A", OrderSide.Buy, 1, 10, 0, 0⟩,
   ⟨"A", OrderSide.Sell, 1, 12, 1, 0⟩,
   ⟨"A", OrderSide.Buy, 1, 10, 2, 0⟩,
   ⟨"A", OrderSide.Sell, 1, 9, 3, 0⟩]

-- =================================================================
-- C6: SMAStrategy::calculate_ma and on_data
-- (src/trading-core/src/backtest/sma.rs lines 36-54 and 57-99)
-- =================================================================

/-- Modelled from the spec: MarketDataPoint lives in the missing
data/types.rs; the strategy code reads only price and timestamp. -/
structure MarketDataPoint where
  timestamp : Int
  symbol : String
  price : Rat
  deriving DecidableEq, Repr

/-- The position record of backtest/types.rs. -/
structure Position where
  symbol : String
  quantity : Rat
  average_entry_price : Rat
  deriving DecidableEq, Repr

/-- The order type enum of backtest/types.rs. -/
inductive OrderType where
  | Market
  | Limit (price : Rat)
  deriving DecidableEq, Repr

/-- The order record of backtest/types.rs. -/
structure Order where
  symbol : String
  order_type : OrderType
  side : OrderSide
  quantity : Rat
  timestamp : Int
  deriving DecidableEq, Repr

/-- The portfolio record of backtest/types.rs, with the position map as
a function. -/
structure Portfolio where
  cash : Rat
  positions : String → Option Position
  total_value : Rat

instance : Inhabited MarketDataPoint := ⟨⟨0, "", 0⟩⟩

instance : Inhabited Portfolio := ⟨⟨0, fun _ => none, 0⟩⟩

/-- The SMA crossover strategy state of backtest/sma.rs (the static
parameters map is omitted; it never influences signals). -/
structure SMAStrategy where
  symbol : String
  short_period : Nat
  long_period : Nat
  short_ma : List Rat
  long_ma : List Rat
  position_size : Rat

/-- SMAStrategy::new: both FIFO windows start empty. -/
def SMAStrategy.new (symbol : String) (short_period long_period : Nat)
    (position_size : Rat) : SMAStrategy :=
  ⟨symbol, short_period, long_period, [], [], position_size⟩

/-- One FIFO window update of calculate_ma: push_back the price, then
pop_front once when the window exceeds its period. -/
def pushWindow (w : List Rat) (period : Nat) (price : Rat) : List Rat :=
  let w2 := w ++ [price]
  if period < w2.length then w2.tail else w2

/-- Embedding of SMAStrategy::calculate_ma: update both windows, and
return the two averages exactly when both windows are full. -/
def calculate_ma (st : SMAStrategy) (price : Rat) : Option (Rat × Rat) × SMAStrategy :=
  let s := pushWindow st.short_ma st.short_period price
  let l := pushWindow st.long_ma st.long_period price
  let st2 := { st with short_ma := s, long_ma := l }
  if s.length = st.short_period ∧ l.length = st.long_period then
    (some (s.sum / (st.short_period : Rat), l.sum / (st.long_period : Rat)), st2)
  else (none, st2)

/-- Embedding of SMAStrategy::on_data: no averages, no orders; with
averages, Buy the fixed position size when short exceeds long and no
position is open, Sell the whole position when short does not exceed
long and a position exists. -/
def on_data (st : SMAStrategy) (data : MarketDataPoint) (port : Portfolio) :
    List Order × SMAStrategy :=
  match calculate_ma st data.price with
  | (some ma, st2) =>
    if ma.2 < ma.1 then
      match port.positions st.symbol with
      | none =>
        ([⟨st.symbol, OrderType.Market, OrderSide.Buy, st.position_size, data.timestamp⟩], st2)
      | some _ => ([], st2)
    else
      match port.positions st.symbol with
      | some pos =>
        ([⟨st.symbol, OrderType.Market, OrderSide.Sell, pos.quantity, data.timestamp⟩], st2)
      | none => ([], st2)
  | (none, st2) => ([], st2)

/-- Feeding a sequence of data points (with the portfolio the engine
would hand over at each step) through the strategy, collecting the
orders emitted at each step. -/
def runSMA : SMAStrategy → List (MarketDataPoint × Portfolio) → List (List Order)
  | _, [] => []
  | st, (d, p) :: rest =>
    let r := on_data st d p
    r.1 :: runSMA r.2 rest

/-- The last n elements of a list. -/
def lastN (n : Nat) (l : List Rat) : List Rat := l.drop (l.length - n)

/-- The strategy state whose windows hold the last short_period and
last long_period prices of the prices seen so far. -/
def smaState (symbol : String) (sp lp : Nat) (qty : Rat) (seen : List Rat) : SMAStrategy :=
  ⟨symbol, sp, lp, lastN sp seen, lastN lp seen, qty⟩

/-- The crossover signal rule stated over the price history directly:
with the short and long averages of the last prices, emit Buy for the
fixed size exactly when short exceeds long and no position is open in
the symbol, emit Sell for the full position exactly when short does not
exceed long and a position exists, and otherwise nothing. -/
def smaSignalRule (sp lp : Nat) (symbol : String) (qty : Rat) (hist : List Rat)
    (d : MarketDataPoint) (port : Portfolio) : List Order :=
  if (lastN lp hist).sum / (lp : Rat) < (lastN sp hist).sum / (sp : Rat) then
    match port.positions symbol with
    | none => [⟨symbol, OrderType.Market, OrderSide.Buy, qty, d.timestamp⟩]
    | some _ => []
  else
    match port.positions symbol with
    | some pos => [⟨symbol, OrderType.Market, OrderSide.Sell, pos.quantity, d.timestamp⟩]
    | none => []

/-- The signal stream the claim describes, computed from the price
history alone: starting from the prices already seen, each step appends
the incoming price to the history, emits nothing while either window
is not yet full (fewer prices seen than the period), and otherwise
applies the crossover rule to the last short_period and last
long_period prices. -/
def runSignals (sp lp : Nat) (symbol : String) (qty : Rat) (seen : List Rat) :
    List (MarketDataPoint × Portfolio) → List (List Order)
  | [] => []
  | (d, p) :: rest =>
    (if sp ≤ seen.length + 1 ∧ lp ≤ seen.length + 1 then
      smaSignalRule sp lp symbol qty (seen ++ [d.price]) d p
    else []) :: runSignals sp lp symbol qty (seen ++ [d.price]) rest

/-- A portfolio with no open positions, for the C6 witness. -/
def c6port : Portfolio := ⟨10000, fun _ => none, 10000⟩

/-- Scenario S3 of the spec: prices 10, 12, 11, 15, 14 at consecutive
instants, with no position ever open. -/
def c6inputs : List (MarketDataPoint × Portfolio) :=
  [(⟨0, "BTCUSDT", 10⟩, c6port), (⟨1, "BTCUSDT", 12⟩, c6port),
   (⟨2, "BTCUSDT", 11⟩, c6port), (⟨3, "BTCUSDT", 15⟩, c6port),
   (⟨4, "BTCUSDT", 14⟩, c6port)]

-- =================================================================
-- C7: MarketDataService::flush_batch_with_retry and BatchConfig
-- (src/trading-core/src/service/market_data.rs lines 278-336,
--  src/trading-core/src/service/types.rs lines 17-26)
-- =================================================================

/-- The batch configuration of service/types.rs. -/
structure BatchConfig where
  max_batch_size : Nat
  max_batch_time : Nat
  max_retry_attempts : Nat
  retry_delay_ms : Nat
  deriving DecidableEq, Repr

/-- The Default instance of BatchConfig. -/
def BatchConfig.default : BatchConfig := ⟨100, 1, 3, 1000⟩

/-- The observable outcome of one flush call: the buffer left behind,
how many batch_insert calls were made, the sleeps performed between
attempts, and the increments applied to the statistics counters. -/
structure FlushOutcome where
  buffer : List TickData
  calls : Nat
  sleeps : List Nat
  batches_flushed_inc : Nat
  retry_attempts_inc : Nat
  failed_batches_inc : Nat
  deriving DecidableEq, Repr

/-- The retry loop of flush_batch_with_retry: insertResult i tells
whether the i-th batch_insert call succeeds. Per iteration: on success
clear the buffer, count the flush and stop; on failure count a retry
attempt, and if the incremented attempt counter has reached
max_retry_attempts count a failed batch, clear the buffer and stop,
otherwise sleep retry_delay_ms and loop. The fuel argument always
exceeds the possible number of iterations. -/
def flushLoop (insertResult : Nat → Bool) (cfg : BatchConfig) (buffer : List TickData) :
    Nat → Nat → FlushOutcome
  | _, 0 => ⟨buffer, 0, [], 0, 0, 0⟩
  | attempt, fuel + 1 =>
    if insertResult attempt then ⟨[], 1, [], 1, 0, 0⟩
    else if cfg.max_retry_attempts ≤ attempt + 1 then ⟨[], 1, [], 0, 1, 1⟩
    else
      let rest := flushLoop insertResult cfg buffer (attempt + 1) fuel
      ⟨rest.buffer, rest.calls + 1, cfg.retry_delay_ms :: rest.sleeps,
        rest.batches_flushed_inc, rest.retry_attempts_inc + 1, rest.failed_batches_inc⟩

/-- Embedding of MarketDataService::flush_batch_with_retry: an empty
buffer returns immediately, otherwise the retry loop runs starting at
attempt 0. -/
def flush_batch_with_retry (insertResult : Nat → Bool) (cfg : BatchConfig)
    (buffer : List TickData) : FlushOutcome :=
  if buffer = [] then ⟨buffer, 0, [], 0, 0, 0⟩
  else flushLoop insertResult cfg buffer 0 (cfg.max_retry_attempts + 1)

-- =================================================================
-- C8 and C10: convert_binance_to_tick_data and the historical fetch
-- (src/trading-core/src/exchange/utils.rs lines 12-51,
--  src/trading-core/src/exchange/binance.rs lines 262-290 and 317-330)
-- =================================================================

/-- The error cases of exchange/errors.rs used by these paths. -/
inductive ExchangeError where
  | ParseError (msg : String)
  | InvalidSymbol (msg : String)
  | ApiError (msg : String)
  | NetworkError (msg : String)
  | WebSocketError (msg : String)
  deriving DecidableEq, Repr

/-- The venue trade message of exchange/types.rs. -/
structure BinanceTradeMessage where
  symbol : String
  trade_id : Nat
  price : String
  quantity : String
  trade_time : Nat
  is_buyer_maker : Bool
  deriving DecidableEq, Repr

/-- Embedding of convert_binance_to_tick_data. The timestamp
construction of chrono (DateTime::from_timestamp_millis) and the exact
decimal parser of rust_decimal (Decimal::from_str) enter as function
parameters returning none on failure. -/
def convert_binance_to_tick_data (fromTimestampMillis : Nat → Option Int)
    (decimalFromStr : String → Option Rat) (msg : BinanceTradeMessage) :
    Except ExchangeError TickData :=
  match fromTimestampMillis msg.trade_time with
  | none => Except.error (ExchangeError.ParseError ("Invalid timestamp"))
  | some timestamp =>
    match decimalFromStr msg.price with
    | none => Except.error (ExchangeError.ParseError ("Invalid price"))
    | some price =>
      match decimalFromStr msg.quantity with
      | none => Except.error (ExchangeError.ParseError ("Invalid quantity"))
      | some quantity =>
        if price ≤ 0 then Except.error (ExchangeError.ParseError ("Price must be positive"))
        else if quantity ≤ 0 then
          Except.error (ExchangeError.ParseError ("Quantity must be positive"))
        else
          Except.ok ⟨timestamp, msg.symbol, price, quantity,
            (if msg.is_buyer_maker then TradeSide.Sell else TradeSide.Buy),
            toString msg.trade_id, msg.is_buyer_maker⟩

/-- One entry of the venue response array of the aggregated-trades
endpoint, with every field optional as in the JSON access of the code. -/
structure AggTradeEntry where
  a : Option Nat
  p : Option String
  q : Option String
  T : Option Nat
  m : Option Bool
  deriving DecidableEq, Repr

/-- The per-entry message construction of fetch_historical_trades_api,
with the unwrap_or defaults of the code. -/
def aggTradeToMessage (symbol : String) (e : AggTradeEntry) : BinanceTradeMessage :=
  ⟨symbol, e.a.getD 0, e.p.getD ("0"), e.q.getD ("0"), e.T.getD 0, e.m.getD false⟩

/-- The loop body of fetch_historical_trades_api: push a successful
conversion, skip (after a logged warning) a failed one. -/
def pushConverted {α β : Type} (f : α → Except ExchangeError β) (acc : List β) (e : α) :
    List β :=
  match f e with
  | Except.ok td => acc ++ [td]
  | Except.error _ => acc

/-- Embedding of the conversion loop of
BinanceExchange::fetch_historical_trades_api once a successful response
array has been received (the HTTP transport is outside the model):
every entry is converted, failures are logged and skipped, successes
are appended in order, and the call returns Ok. -/
def fetch_historical_trades_api (fromTimestampMillis : Nat → Option Int)
    (decimalFromStr : String → Option Rat) (symbol : String)
    (trades : List AggTradeEntry) : Except ExchangeError (List TickData) :=
  Except.ok (trades.foldl
    (pushConverted (fun e => convert_binance_to_tick_data fromTimestampMillis decimalFromStr
      (aggTradeToMessage symbol e)))
    [])

-- =================================================================
-- C9: TickDataRepository::get_ticks and is_recent_query
-- (src/trading-core/src/data/repository.rs lines 158-184 and 577-587)
-- =================================================================

/-- The query record of the missing data/types.rs, with the fields the
repository reads. -/
structure TickQuery where
  symbol : String
  start_time : Option Int
  end_time : Option Int
  limit : Option Nat
  trade_side : Option TradeSide

/-- The constant DEFAULT_QUERY_LIMIT of repository.rs. -/
def DEFAULT_QUERY_LIMIT : Nat := 1000

/-- Embedding of TickDataRepository::is_recent_query, with instants in
seconds: a query is recent when now minus its start time is at most one
hour, or when it has no start time. -/
def is_recent_query (now : Int) (q : TickQuery) : Bool :=
  match q.start_time with
  | some t => decide (now - t ≤ 3600)
  | none => true

/-- Embedding of TickDataRepository::get_ticks, with the cache read and
the database query assumed to succeed and passed as functions. The
first component is the returned list; the second is the list of ticks
pushed best-effort into the cache before returning (the database rows
on the database path, nothing on a cache hit). -/
def get_ticks (now : Int) (cacheGet : String → Nat → List TickData)
    (dbQuery : TickQuery → List TickData) (q : TickQuery) :
    List TickData × List TickData :=
  let limit := min (q.limit.getD DEFAULT_QUERY_LIMIT) MAX_QUERY_LIMIT
  let cacheHit :=
    if is_recent_query now q then
      let cached := cacheGet q.symbol limit
      if cached.length = limit then some cached else none
    else none
  match cacheHit with
  | some cached => (cached, [])
  | none =>
    let ticks := dbQuery q
    (ticks, ticks)

-- =================================================================
-- Theorems
-- =================================================================

/-- Folding insStep from any accumulator shifts the count of the run
started at zero over the same store. -/
theorem foldl_insStep_shift (chunk : List TickData) :
    ∀ p : Nat × List TickData,
      chunk.foldl insStep p
        = (p.1 + (chunk.foldl insStep (0, p.2)).1, (chunk.foldl insStep (0, p.2)).2) := by
  induction chunk with
  | nil => intro p; simp
  | cons t ts ih =>
    intro p
    obtain ⟨c, store⟩ := p
    simp only [List.foldl_cons]
    by_cases h : store.any (fun s => decide (tickKey s = tickKey t)) = true
    · rw [show insStep (c, store) t = (c, store) by simp [insStep, h],
        show insStep (0, store) t = (0, store) by simp [insStep, h]]
      exact ih (c, store)
    · rw [show insStep (c, store) t = (c + 1, store ++ [t]) by simp [insStep, h],
        show insStep (0, store) t = (0 + 1, store ++ [t]) by simp [insStep, h]]
      rw [ih (c + 1, store ++ [t]), ih (0 + 1, store ++ [t])]
      refine Prod.ext ?_ rfl
      simp only
      omega

/-- batch_insert_chunk distributes over list append: the second part
runs on the store left by the first and the counts add. -/
theorem batch_insert_chunk_append (store a b : List TickData) :
    batch_insert_chunk store (a ++ b)
      = ((batch_insert_chunk store a).1
            + (batch_insert_chunk (batch_insert_chunk store a).2 b).1,
        (batch_insert_chunk (batch_insert_chunk store a).2 b).2) := by
  unfold batch_insert_chunk
  rw [List.foldl_append]
  rw [foldl_insStep_shift b (List.foldl insStep (0, store) a)]

/-- Folding chunkStep from any accumulator shifts the count of the run
started at zero over the same store. -/
theorem foldl_chunkStep_shift (chunks : List (List TickData)) :
    ∀ p : Nat × List TickData,
      chunks.foldl chunkStep p
        = (p.1 + (chunks.foldl chunkStep (0, p.2)).1, (chunks.foldl chunkStep (0, p.2)).2) := by
  induction chunks with
  | nil => intro p; simp
  | cons c cs ih =>
    intro p
    obtain ⟨n, store⟩ := p
    simp only [List.foldl_cons]
    rw [show chunkStep (n, store) c
        = (n + (batch_insert_chunk store c).1, (batch_insert_chunk store c).2) from rfl,
      show chunkStep (0, store) c
        = (0 + (batch_insert_chunk store c).1, (batch_insert_chunk store c).2) from rfl]
    rw [ih (n + (batch_insert_chunk store c).1, (batch_insert_chunk store c).2),
      ih (0 + (batch_insert_chunk store c).1, (batch_insert_chunk store c).2)]
    refine Prod.ext ?_ rfl
    simp only
    omega

/-- Inserting chunk by chunk is the same operation as inserting the
whole list in one conflict-ignoring pass. -/
theorem chunked_insert_eq (n : Nat) (hn : n ≠ 0) (ticks : List TickData) :
    ∀ store : List TickData,
      (chunksOf n ticks).foldl chunkStep (0, store) = batch_insert_chunk store ticks := by
  suffices h : ∀ (L : Nat) (ticks : List TickData), ticks.length = L →
      ∀ store : List TickData,
        (chunksOf n ticks).foldl chunkStep (0, store) = batch_insert_chunk store ticks from
    h ticks.length ticks rfl
  intro L
  induction L using Nat.strong_induction_on with
  | _ L ih =>
    intro ticks hL store
    by_cases hnil : ticks = []
    · subst hnil
      rw [chunksOf]
      simp [batch_insert_chunk]
    · rw [chunksOf]
      rw [dif_neg (by simp [hnil, hn])]
      simp only [List.foldl_cons]
      rw [show chunkStep (0, store) (ticks.take n)
          = (0 + (batch_insert_chunk store (ticks.take n)).1,
            (batch_insert_chunk store (ticks.take n)).2) from rfl]
      rw [foldl_chunkStep_shift]
      have hlt : (ticks.drop n).length < L := by
        subst hL
        have h1 : 0 < ticks.length := List.length_pos.mpr hnil
        have h2 : 0 < n := Nat.pos_of_ne_zero hn
        simp only [List.length_drop]
        omega
      rw [ih (ticks.drop n).length hlt (ticks.drop n) rfl]
      rw [show batch_insert_chunk store ticks
          = batch_insert_chunk store (ticks.take n ++ ticks.drop n) by
            rw [List.take_append_drop]]
      rw [batch_insert_chunk_append]
      refine Prod.ext ?_ rfl
      simp only
      omega

/-- Every chunk produced by chunksOf has length at most the chunk size. -/
theorem chunksOf_length_le (n : Nat) (ticks : List TickData) :
    ∀ c ∈ chunksOf n ticks, c.length ≤ n := by
  suffices h : ∀ (L : Nat) (ticks : List TickData), ticks.length = L →
      ∀ c ∈ chunksOf n ticks, c.length ≤ n from
    h ticks.length ticks rfl
  intro L
  induction L using Nat.strong_induction_on with
  | _ L ih =>
    intro ticks hL c hc
    rw [chunksOf] at hc
    split at hc
    · simp at hc
    · rename_i h
      simp only [not_or] at h
      rcases List.mem_cons.mp hc with hc1 | hc2
      · subst hc1
        simp [List.length_take]
      · have hlt : (ticks.drop n).length < L := by
          subst hL
          have h1 : 0 < ticks.length := List.length_pos.mpr h.1
          have h2 : 0 < n := Nat.pos_of_ne_zero h.2
          simp only [List.length_drop]
          omega
        exact ih (ticks.drop n).length hlt (ticks.drop n) rfl c hc2

/-- The rows_affected count of a conflict-ignoring insert is exactly the
growth of the store. -/
theorem batch_insert_chunk_length (chunk : List TickData) :
    ∀ store : List TickData,
      (batch_insert_chunk store chunk).2.length
        = store.length + (batch_insert_chunk store chunk).1 := by
  induction chunk with
  | nil => intro store; simp [batch_insert_chunk]
  | cons t ts ih =>
    intro store
    unfold batch_insert_chunk
    simp only [List.foldl_cons]
    by_cases h : store.any (fun s => decide (tickKey s = tickKey t)) = true
    · rw [show insStep (0, store) t = (0, store) by simp [insStep, h]]
      exact ih store
    · rw [show insStep (0, store) t = (0 + 1, store ++ [t]) by simp [insStep, h]]
      rw [foldl_insStep_shift ts (0 + 1, store ++ [t])]
      have := ih (store ++ [t])
      unfold batch_insert_chunk at this
      simp only at this ⊢
      simp only [List.length_append, List.length_cons, List.length_nil] at this ⊢
      omega

/-- validate_tick_data either succeeds or fails with a Validation error. -/
theorem validate_tick_data_cases (t : TickData) :
    validate_tick_data t = Except.ok () ∨
      isValidationFailure (validate_tick_data t) = true := by
  unfold validate_tick_data
  split_ifs <;> simp [isValidationFailure]

/-- validate_all succeeds exactly when every element validates, and
otherwise reports a Validation error. -/
theorem validate_all_spec (ticks : List TickData) :
    (validate_all ticks = Except.ok () ↔ ∀ t ∈ ticks, validate_tick_data t = Except.ok ()) ∧
    (validate_all ticks ≠ Except.ok () → isValidationFailure (validate_all ticks) = true) := by
  induction ticks with
  | nil => simp [validate_all]
  | cons t ts ih =>
    constructor
    · constructor
      · intro h
        intro x hx
        rcases List.mem_cons.mp hx with hx1 | hx2
        · subst hx1
          unfold validate_all at h
          cases hv : validate_tick_data x with
          | ok u => cases u; rfl
          | error e => rw [hv] at h; simp at h
        · apply ih.1.mp _ x hx2
          unfold validate_all at h
          cases hv : validate_tick_data t with
          | ok u => rw [hv] at h; exact h
          | error e => rw [hv] at h; simp at h
      · intro h
        unfold validate_all
        rw [h t (List.mem_cons_self t ts)]
        exact ih.1.mpr (fun x hx => h x (List.mem_cons_of_mem t hx))
    · intro h
      unfold validate_all at h ⊢
      cases hv : validate_tick_data t with
      | ok u =>
        rw [hv] at h
        exact ih.2 h
      | error e =>
        rcases validate_tick_data_cases t with hcase | hcase
        · rw [hv] at hcase
          simp at hcase
        · rw [hv] at hcase
          exact hcase

/-- Claim C3: batch_insert validates every element before any store
write: if some element fails validation the call fails with a
Validation error and the store is unchanged; otherwise the ticks are
inserted in chunks of at most MAX_BATCH_SIZE with duplicate keys
ignored, which as a whole equals one conflict-ignoring pass over the
list, and the returned count is the number of rows actually inserted
(the growth of the store). -/
theorem C3_batch_insert (store ticks : List TickData) :
    ((∃ t ∈ ticks, validate_tick_data t ≠ Except.ok ()) →
      isValidationFailure (batch_insert store ticks).1 = true ∧
      (batch_insert store ticks).2 = store) ∧
    ((∀ t ∈ ticks, validate_tick_data t = Except.ok ()) →
      (batch_insert store ticks).1 = Except.ok (batch_insert_chunk store ticks).1 ∧
      (batch_insert store ticks).2 = (batch_insert_chunk store ticks).2 ∧
      (batch_insert store ticks).2.length
        = store.length + (batch_insert_chunk store ticks).1 ∧
      (∀ c ∈ chunksOf MAX_BATCH_SIZE ticks, c.length ≤ MAX_BATCH_SIZE)) := by
  constructor
  · rintro ⟨t, ht, hbad⟩
    have hne : ticks ≠ [] := by
      intro h
      subst h
      simp at ht
    have hva : validate_all ticks ≠ Except.ok () := by
      intro h
      exact hbad ((validate_all_spec ticks).1.mp h t ht)
    have hfail := (validate_all_spec ticks).2 hva
    unfold batch_insert
    rw [if_neg hne]
    split
    · rename_i e heq
      rw [heq] at hfail
      refine ⟨?_, rfl⟩
      cases e <;> simp_all [isValidationFailure]
    · rename_i u heq
      cases u
      exact absurd heq hva
  · intro hall
    by_cases hne : ticks = []
    · subst hne
      refine ⟨?_, ?_, ?_, ?_⟩ <;>
        simp [batch_insert, batch_insert_chunk, chunksOf]
    · have hva : validate_all ticks = Except.ok () := (validate_all_spec ticks).1.mpr hall
      unfold batch_insert
      rw [if_neg hne]
      split
      · rename_i e heq
        rw [hva] at heq
        simp at heq
      · rename_i u heq
        rw [chunked_insert_eq MAX_BATCH_SIZE (by decide) ticks store]
        exact ⟨rfl, rfl, batch_insert_chunk_length ticks store,
          chunksOf_length_le MAX_BATCH_SIZE ticks⟩

/-- A concrete instance of C3 (scenario S2 of the spec): a batch of
three valid ticks whose last two share one key inserts two rows into an
empty store and reports 2. -/
theorem C3_batch_insert_witness :
    (batch_insert []
        [⟨7, "B", 1, 1, TradeSide.Buy, "b1", false⟩,
         ⟨7, "B", 2, 1, TradeSide.Buy, "b2", false⟩,
         ⟨7, "B", 3, 1, TradeSide.Buy, "b2", false⟩]).1 = Except.ok 2 ∧
    (batch_insert []
        [⟨7, "B", 1, 1, TradeSide.Buy, "b1", false⟩,
         ⟨7, "B", 2, 1, TradeSide.Buy, "b2", false⟩,
         ⟨7, "B", 3, 1, TradeSide.Buy, "b2", false⟩]).2.length = 2 := by
  have h := (C3_batch_insert []
    [⟨7, "B", 1, 1, TradeSide.Buy, "b1", false⟩,
     ⟨7, "B", 2, 1, TradeSide.Buy, "b2", false⟩,
     ⟨7, "B", 3, 1, TradeSide.Buy, "b2", false⟩]).2 (by decide)
  refine ⟨h.1.trans (by decide), h.2.2.1.trans (by decide)⟩

/-- With positive buy quantities the accumulated buy quantity of any
symbol is nonnegative. -/
theorem buyQty_nonneg (pre : List Trade) (s : String)
    (hpre : ∀ t ∈ pre, t.side = OrderSide.Buy → 0 < t.quantity) :
    0 ≤ buyQty pre s := by
  unfold buyQty
  apply List.sum_nonneg
  intro x hx
  rw [List.mem_map] at hx
  obtain ⟨t, ht, rfl⟩ := hx
  rw [List.mem_filter] at ht
  exact le_of_lt (hpre t ht.1 (of_decide_eq_true ht.2).1)

/-- With positive buy quantities, a zero accumulated buy quantity means
there is no earlier buy at all, hence also zero accumulated cost. -/
theorem buyCost_eq_zero (pre : List Trade) (s : String)
    (hpre : ∀ t ∈ pre, t.side = OrderSide.Buy → 0 < t.quantity)
    (h : buyQty pre s = 0) : buyCost pre s = 0 := by
  have hnil : pre.filter (fun t => decide (t.side = OrderSide.Buy ∧ t.symbol = s)) = [] := by
    by_contra hne
    have hpos : 0 < buyQty pre s := by
      unfold buyQty
      apply List.sum_pos
      · intro x hx
        rw [List.mem_map] at hx
        obtain ⟨t, ht, rfl⟩ := hx
        rw [List.mem_filter] at ht
        exact hpre t ht.1 (of_decide_eq_true ht.2).1
      · simpa using hne
    rw [h] at hpos
    exact lt_irrefl 0 hpos
  unfold buyCost
  rw [hnil]
  simp

/-- Appending one trade changes the accumulated buy quantity by its
quantity exactly when it is a buy of the symbol. -/
theorem buyQty_append (pre : List Trade) (t : Trade) (s : String) :
    buyQty (pre ++ [t]) s
      = buyQty pre s
        + (if t.side = OrderSide.Buy ∧ t.symbol = s then t.quantity else 0) := by
  unfold buyQty
  rw [List.filter_append]
  by_cases h : t.side = OrderSide.Buy ∧ t.symbol = s <;> simp [h]

/-- Appending one trade changes the accumulated buy cost by its
price * quantity exactly when it is a buy of the symbol. -/
theorem buyCost_append (pre : List Trade) (t : Trade) (s : String) :
    buyCost (pre ++ [t]) s
      = buyCost pre s
        + (if t.side = OrderSide.Buy ∧ t.symbol = s then t.price * t.quantity else 0) := by
  unfold buyCost
  rw [List.filter_append]
  by_cases h : t.side = OrderSide.Buy ∧ t.symbol = s <;> simp [h]

/-- Loop invariant of analyze_trades: as long as every buy has positive
quantity, the position map of a symbol holds the total quantity and the
average cost of all earlier buys of that symbol (sells never change
it), and the classified trade lists grow exactly as described by
sellsClassified. -/
theorem analyze_loop (suffix : List Trade) :
    ∀ (pre : List Trade) (st : AnalyzeState),
      (∀ t ∈ pre, t.side = OrderSide.Buy → 0 < t.quantity) →
      (∀ t ∈ suffix, t.side = OrderSide.Buy → 0 < t.quantity) →
      (∀ s, st.position_map s
        = if 0 < buyQty pre s then some (buyQty pre s, buyCost pre s / buyQty pre s)
          else none) →
      (suffix.foldl analyzeStep st).profit_trades
          = st.profit_trades ++ (sellsClassified pre suffix).1 ∧
      (suffix.foldl analyzeStep st).loss_trades
          = st.loss_trades ++ (sellsClassified pre suffix).2 := by
  induction suffix with
  | nil =>
    intro pre st hpre hsuf hinv
    simp [sellsClassified]
  | cons t ts ih =>
    intro pre st hpre hsuf hinv
    have hq : t.side = OrderSide.Buy → 0 < t.quantity := hsuf t (List.mem_cons_self t ts)
    have hpre2 : ∀ x ∈ pre ++ [t], x.side = OrderSide.Buy → 0 < x.quantity := by
      intro x hx
      rcases List.mem_append.mp hx with h | h
      · exact hpre x h
      · simp only [List.mem_singleton] at h
        subst h
        exact hq
    have hsuf2 : ∀ x ∈ ts, x.side = OrderSide.Buy → 0 < x.quantity :=
      fun x hx => hsuf x (List.mem_cons_of_mem t hx)
    simp only [List.foldl_cons]
    cases hside : t.side with
    | Buy =>
      have hqt : 0 < t.quantity := hq hside
      have hstep : analyzeStep st t =
          { st with position_map :=
              fun s => if s = t.symbol then
                some (((st.position_map t.symbol).getD (0, 0)).1 + t.quantity,
                  (((st.position_map t.symbol).getD (0, 0)).2
                      * ((st.position_map t.symbol).getD (0, 0)).1
                    + t.price * t.quantity)
                    / (((st.position_map t.symbol).getD (0, 0)).1 + t.quantity))
              else st.position_map s } := by
        unfold analyzeStep
        rw [hside]
      have hinv2 : ∀ s, (analyzeStep st t).position_map s
          = if 0 < buyQty (pre ++ [t]) s then
              some (buyQty (pre ++ [t]) s, buyCost (pre ++ [t]) s / buyQty (pre ++ [t]) s)
            else none := by
        intro s
        rw [hstep]
        dsimp only
        by_cases hs : s = t.symbol
        · rw [if_pos hs, hs]
          have hbq : buyQty (pre ++ [t]) t.symbol = buyQty pre t.symbol + t.quantity := by
            rw [buyQty_append, if_pos ⟨hside, rfl⟩]
          have hbc : buyCost (pre ++ [t]) t.symbol
              = buyCost pre t.symbol + t.price * t.quantity := by
            rw [buyCost_append, if_pos ⟨hside, rfl⟩]
          have hnn : 0 ≤ buyQty pre t.symbol := buyQty_nonneg pre t.symbol hpre
          rw [hbq, hbc, hinv t.symbol]
          by_cases hQ : 0 < buyQty pre t.symbol
          · rw [if_pos hQ,
              if_pos (by linarith : (0 : ℚ) < buyQty pre t.symbol + t.quantity)]
            simp only [Option.getD_some]
            congr 1
            refine Prod.ext rfl ?_
            simp only
            rw [div_mul_cancel₀ _ (ne_of_gt hQ)]
          · have hz : buyQty pre t.symbol = 0 := le_antisymm (not_lt.mp hQ) hnn
            have hcz : buyCost pre t.symbol = 0 := buyCost_eq_zero pre t.symbol hpre hz
            rw [if_neg hQ, hz, hcz,
              if_pos (by simpa using hqt : (0 : ℚ) < 0 + t.quantity)]
            simp only [Option.getD_none]
            norm_num
        · rw [if_neg hs]
          have hbq : buyQty (pre ++ [t]) s = buyQty pre s := by
            rw [buyQty_append, if_neg (by intro hc; exact hs hc.2.symm)]
            ring
          have hbc : buyCost (pre ++ [t]) s = buyCost pre s := by
            rw [buyCost_append, if_neg (by intro hc; exact hs hc.2.symm)]
            ring
          rw [hbq, hbc, hinv s]
      have hrec := ih (pre ++ [t]) (analyzeStep st t) hpre2 hsuf2 hinv2
      have hpt : (analyzeStep st t).profit_trades = st.profit_trades := by rw [hstep]
      have hlt : (analyzeStep st t).loss_trades = st.loss_trades := by rw [hstep]
      have hsc : sellsClassified pre (t :: ts) = sellsClassified (pre ++ [t]) ts := by
        rw [sellsClassified, hside]
      rw [hsc]
      rw [hpt, hlt] at hrec
      exact hrec
    | Sell =>
      have hbq : ∀ s, buyQty (pre ++ [t]) s = buyQty pre s := by
        intro s
        rw [buyQty_append, if_neg (by intro hc; rw [hside] at hc; exact absurd hc.1 (by simp))]
        ring
      have hbc : ∀ s, buyCost (pre ++ [t]) s = buyCost pre s := by
        intro s
        rw [buyCost_append, if_neg (by intro hc; rw [hside] at hc; exact absurd hc.1 (by simp))]
        ring
      by_cases hQ : 0 < buyQty pre t.symbol
      · have hmap : st.position_map t.symbol
            = some (buyQty pre t.symbol, buyCost pre t.symbol / buyQty pre t.symbol) := by
          rw [hinv t.symbol, if_pos hQ]
        have hcond : (buyCost pre t.symbol / buyQty pre t.symbol < t.price)
            ↔ buyCost pre t.symbol < t.price * buyQty pre t.symbol := by
          rw [div_lt_iff₀ hQ]
        by_cases hwin : buyCost pre t.symbol < t.price * buyQty pre t.symbol
        · have hstep : analyzeStep st t
              = { st with profit_trades := st.profit_trades ++ [t] } := by
            unfold analyzeStep
            rw [hside, hmap]
            simp only
            rw [if_pos (hcond.mpr hwin)]
          have hinv2 : ∀ s, (analyzeStep st t).position_map s
              = if 0 < buyQty (pre ++ [t]) s then
                  some (buyQty (pre ++ [t]) s,
                    buyCost (pre ++ [t]) s / buyQty (pre ++ [t]) s)
                else none := by
            intro s
            rw [hstep]
            dsimp only
            rw [hbq s, hbc s]
            exact hinv s
          have hrec := ih (pre ++ [t]) (analyzeStep st t) hpre2 hsuf2 hinv2
          have hsc : sellsClassified pre (t :: ts)
              = (t :: (sellsClassified (pre ++ [t]) ts).1,
                  (sellsClassified (pre ++ [t]) ts).2) := by
            rw [sellsClassified, hside]
            simp only
            rw [if_pos hQ, if_pos hwin]
          have hpt : (analyzeStep st t).profit_trades = st.profit_trades ++ [t] := by
            rw [hstep]
          have hlt : (analyzeStep st t).loss_trades = st.loss_trades := by
            rw [hstep]
          rw [hpt, hlt] at hrec
          rw [hsc]
          refine ⟨?_, hrec.2⟩
          rw [hrec.1]
          simp
        · have hstep : analyzeStep st t
              = { st with loss_trades := st.loss_trades ++ [t] } := by
            unfold analyzeStep
            rw [hside, hmap]
            simp only
            rw [if_neg (fun hc => hwin (hcond.mp hc))]
          have hinv2 : ∀ s, (analyzeStep st t).position_map s
              = if 0 < buyQty (pre ++ [t]) s then
                  some (buyQty (pre ++ [t]) s,
                    buyCost (pre ++ [t]) s / buyQty (pre ++ [t]) s)
                else none := by
            intro s
            rw [hstep]
            dsimp only
            rw [hbq s, hbc s]
            exact hinv s
          have hrec := ih (pre ++ [t]) (analyzeStep st t) hpre2 hsuf2 hinv2
          have hsc : sellsClassified pre (t :: ts)
              = ((sellsClassified (pre ++ [t]) ts).1,
                  t :: (sellsClassified (pre ++ [t]) ts).2) := by
            rw [sellsClassified, hside]
            simp only
            rw [if_pos hQ, if_neg hwin]
          have hpt : (analyzeStep st t).profit_trades = st.profit_trades := by
            rw [hstep]
          have hlt : (analyzeStep st t).loss_trades = st.loss_trades ++ [t] := by
            rw [hstep]
          rw [hpt, hlt] at hrec
          rw [hsc]
          refine ⟨hrec.1, ?_⟩
          rw [hrec.2]
          simp
      · have hmap : st.position_map t.symbol = none := by
          rw [hinv t.symbol, if_neg hQ]
        have hstep : analyzeStep st t = st := by
          unfold analyzeStep
          rw [hside, hmap]
        have hinv2 : ∀ s, st.position_map s
            = if 0 < buyQty (pre ++ [t]) s then
                some (buyQty (pre ++ [t]) s,
                  buyCost (pre ++ [t]) s / buyQty (pre ++ [t]) s)
              else none := by
          intro s
          rw [hbq s, hbc s]
          exact hinv s
        have hrec := ih (pre ++ [t]) st hpre2 hsuf2 hinv2
        have hsc : sellsClassified pre (t :: ts) = sellsClassified (pre ++ [t]) ts := by
          rw [sellsClassified, hside]
          simp only
          rw [if_neg hQ]
        rw [hsc, hstep]
        exact hrec

/-- The length of the last-n slice of a list. -/
theorem lastN_length (n : Nat) (l : List Rat) : (lastN n l).length = min l.length n := by
  simp only [lastN, List.length_drop]
  omega

/-- Pushing one price through a FIFO window that holds the last period
prices yields the window of the last period prices of the extended
history. -/
theorem pushWindow_lastN (period : Nat) (seen : List Rat) (price : Rat) :
    pushWindow (lastN period seen) period price = lastN period (seen ++ [price]) := by
  unfold pushWindow
  have hlen : (lastN period seen).length = min seen.length period := lastN_length period seen
  by_cases hple : period ≤ seen.length
  · rw [if_pos (by simp only [List.length_append, hlen, List.length_singleton]; omega)]
    by_cases hp0 : period = 0
    · subst hp0
      have h1 : lastN 0 seen = [] := by
        unfold lastN
        exact List.drop_eq_nil_of_le (by omega)
      have h2 : lastN 0 (seen ++ [price]) = [] := by
        unfold lastN
        exact List.drop_eq_nil_of_le (by omega)
      rw [h1, h2]
      rfl
    · have hxlen : 1 ≤ (lastN period seen).length := by omega
      rw [← List.drop_one, List.drop_append_of_le_length hxlen]
      unfold lastN
      rw [List.drop_drop, List.length_append, List.length_singleton,
        List.drop_append_of_le_length
          (by omega : seen.length + 1 - period ≤ seen.length)]
      have harith : seen.length - period + 1 = seen.length + 1 - period := by omega
      rw [harith]
  · rw [if_neg (by simp only [List.length_append, hlen, List.length_singleton]; omega)]
    unfold lastN
    have h1 : seen.length - period = 0 := by omega
    have h2 : (seen ++ [price]).length - period = 0 := by
      simp only [List.length_append, List.length_singleton]
      omega
    rw [h1, h2]
    simp

/-- calculate_ma on a state whose windows hold the last prices: the
windows absorb the new price, and the averages appear exactly when
enough prices have been seen to fill both periods. -/
theorem calculate_ma_state (symbol : String) (sp lp : Nat) (qty : Rat)
    (seen : List Rat) (price : Rat) :
    calculate_ma (smaState symbol sp lp qty seen) price
      = (if sp ≤ seen.length + 1 ∧ lp ≤ seen.length + 1 then
          some ((lastN sp (seen ++ [price])).sum / (sp : Rat),
            (lastN lp (seen ++ [price])).sum / (lp : Rat))
        else none,
        smaState symbol sp lp qty (seen ++ [price])) := by
  unfold calculate_ma smaState
  dsimp only
  rw [pushWindow_lastN, pushWindow_lastN]
  have hc : ((lastN sp (seen ++ [price])).length = sp
        ∧ (lastN lp (seen ++ [price])).length = lp)
      ↔ (sp ≤ seen.length + 1 ∧ lp ≤ seen.length + 1) := by
    rw [lastN_length, lastN_length]
    simp only [List.length_append, List.length_singleton]
    omega
  by_cases h : sp ≤ seen.length + 1 ∧ lp ≤ seen.length + 1
  · rw [if_pos (hc.mpr h), if_pos h]
  · rw [if_neg (fun hcond => h (hc.mp hcond)), if_neg h]

/-- on_data on a state whose windows hold the last prices: nothing is
emitted until both windows are full, and afterwards the crossover rule
over the price history decides the orders. -/
theorem on_data_state (symbol : String) (sp lp : Nat) (qty : Rat) (seen : List Rat)
    (d : MarketDataPoint) (port : Portfolio) :
    on_data (smaState symbol sp lp qty seen) d port
      = ((if sp ≤ seen.length + 1 ∧ lp ≤ seen.length + 1 then
            smaSignalRule sp lp symbol qty (seen ++ [d.price]) d port
          else []),
        smaState symbol sp lp qty (seen ++ [d.price])) := by
  unfold on_data
  rw [calculate_ma_state]
  by_cases h : sp ≤ seen.length + 1 ∧ lp ≤ seen.length + 1
  · rw [if_pos h, if_pos h]
    unfold smaSignalRule
    dsimp only [smaState]
    by_cases hcmp : (lastN lp (seen ++ [d.price])).sum / (lp : ℚ)
        < (lastN sp (seen ++ [d.price])).sum / (sp : ℚ)
    · rw [if_pos hcmp, if_pos hcmp]
      cases hpos : port.positions symbol <;> rfl
    · rw [if_neg hcmp, if_neg hcmp]
      cases hpos : port.positions symbol <;> rfl
  · rw [if_neg h, if_neg h]

/-- Feeding data through the strategy equals the claimed signal stream
computed from the price history alone. -/
theorem runSMA_eq_runSignals (symbol : String) (sp lp : Nat) (qty : Rat) :
    ∀ (inputs : List (MarketDataPoint × Portfolio)) (seen : List Rat),
      runSMA (smaState symbol sp lp qty seen) inputs
        = runSignals sp lp symbol qty seen inputs := by
  intro inputs
  induction inputs with
  | nil => intro seen; rfl
  | cons x rest ih =>
    intro seen
    obtain ⟨d, p⟩ := x
    simp only [runSMA, runSignals]
    rw [on_data_state]
    rw [ih (seen ++ [d.price])]

/-- Before both windows can be full, the claimed signal stream emits
nothing. -/
theorem runSignals_early (sp lp : Nat) (symbol : String) (qty : Rat) :
    ∀ (inputs : List (MarketDataPoint × Portfolio)) (seen : List Rat) (i : Nat),
      seen.length + i + 1 < max sp lp →
      (runSignals sp lp symbol qty seen inputs).getD i [] = [] := by
  intro inputs
  induction inputs with
  | nil =>
    intro seen i hi
    simp [runSignals]
  | cons x rest ih =>
    intro seen i hi
    obtain ⟨d, p⟩ := x
    simp only [runSignals]
    cases i with
    | zero =>
      rw [List.getD_cons_zero, if_neg]
      intro hcond
      have hle : max sp lp ≤ seen.length + 1 := Nat.max_le.mpr ⟨hcond.1, hcond.2⟩
      omega
    | succ j =>
      rw [List.getD_cons_succ]
      apply ih (seen ++ [d.price]) j
      simp only [List.length_append, List.length_singleton]
      omega

/-- Claim C6: on every price sequence the SMA strategy emits exactly the
signal stream of the crossover rule — nothing until both FIFO windows
are full (that is, while fewer than max short_period long_period prices
have been seen), and from then on Buy of the fixed position size
exactly when the short average of the last short_period prices exceeds
the long average of the last long_period prices and no position is
open in the symbol, Sell of the full position exactly when the short
average does not exceed the long average and a position exists, and
nothing otherwise; each step depends only on the prices seen so far
(no look-ahead). -/
theorem C6_sma_signals (symbol : String) (sp lp : Nat) (qty : Rat)
    (inputs : List (MarketDataPoint × Portfolio)) :
    runSMA (SMAStrategy.new symbol sp lp qty) inputs
        = runSignals sp lp symbol qty [] inputs ∧
    ∀ i : Nat, i + 1 < max sp lp →
      (runSMA (SMAStrategy.new symbol sp lp qty) inputs).getD i [] = [] := by
  have hnew : SMAStrategy.new symbol sp lp qty = smaState symbol sp lp qty [] := by
    unfold SMAStrategy.new smaState lastN
    simp
  have heq := runSMA_eq_runSignals symbol sp lp qty inputs []
  refine ⟨by rw [hnew]; exact heq, ?_⟩
  intro i hi
  rw [hnew, heq]
  exact runSignals_early sp lp symbol qty inputs [] i (by simpa using hi)

/-- A concrete instance of C6 (scenario S3 of the spec): with
short_period 2, long_period 3 and prices 10, 12, 11, 15, 14, no signal
is emitted at the first step, and the third step emits a Buy of size 1
because the short average 11.5 exceeds the long average 11 and no
position is open. -/
theorem C6_sma_signals_witness :
    (runSMA (SMAStrategy.new "BTCUSDT" 2 3 1) c6inputs).getD 0 [] = [] ∧
    (runSMA (SMAStrategy.new "BTCUSDT" 2 3 1) c6inputs).getD 2 []
      = [⟨"BTCUSDT", OrderType.Market, OrderSide.Buy, 1, 2⟩] := by
  have h := C6_sma_signals "BTCUSDT" 2 3 1 c6inputs
  refine ⟨h.2 0 (by norm_num), ?_⟩
  rw [h.1]
  norm_num +decide [runSignals, c6inputs, c6port, smaSignalRule, lastN,
    List.getD_cons_zero, List.getD_cons_succ]

/-- Claim C5 (amended): with positive buy quantities, the profit factor
of the code is the sum of (price - commission) * quantity over the
winning sells divided by the sum of (price + commission) * quantity
over the losing sells, where a sell wins exactly when its price exceeds
the average cost of all earlier buys of its symbol and sells without an
earlier buy are dropped; it is 1 when both sums are zero and
Decimal.MAX when only the loss sum is zero. The sums are not sums of
realized PnL. -/
theorem C5_profit_factor_amended (trades : List Trade)
    (hbuys : ∀ t ∈ trades, t.side = OrderSide.Buy → 0 < t.quantity) :
    analyze_trades trades = sellsClassified [] trades ∧
    profit_factor trades
      = calculate_profit_factor (sellsClassified [] trades).1
          (sellsClassified [] trades).2 := by
  have h := analyze_loop trades [] ⟨fun _ => none, [], []⟩ (by simp) hbuys
    (by
      intro s
      have : buyQty [] s = 0 := by simp [buyQty]
      rw [this]
      simp)
  have h1 : analyze_trades trades = sellsClassified [] trades := by
    unfold analyze_trades
    obtain ⟨hp, hl⟩ := h
    simp only at hp hl
    rw [Prod.ext_iff]
    constructor
    · simpa using hp
    · simpa using hl
  refine ⟨h1, ?_⟩
  unfold profit_factor
  rw [h1]

/-- Claim C5 fails as stated: on the trade log buy 1 at 10, sell 1 at
12, buy 1 at 10, sell 1 at 9 (zero commission), the realized PnLs are
+2 and -1, so the claimed ratio of PnL sums is 2, but the code sums
gross sell amounts and returns 12 / 9 = 4 / 3. -/
theorem C5_profit_factor_counterexample :
    profit_factor c5trades = 4 / 3 ∧
    profit_factor_claimed c5trades = some 2 ∧
    some (profit_factor c5trades) ≠ profit_factor_claimed c5trades := by
  have h1 : profit_factor c5trades = 4 / 3 := by
    norm_num [profit_factor, analyze_trades, c5trades, analyzeStep,
      calculate_profit_factor, decimalMAX, List.foldl_cons, List.foldl_nil]
  have h2 : profit_factor_claimed c5trades = some 2 := by
    norm_num [profit_factor_claimed, realized_pnls, c5trades, specPnlStep,
      List.foldl_cons, List.foldl_nil]
  refine ⟨h1, h2, ?_⟩
  rw [h1, h2]
  norm_num

/-- A concrete instance of the amended C5: on the counterexample log
the code output agrees with the closed-form classification, which keeps
exactly one winning sell. -/
theorem C5_profit_factor_amended_witness :
    profit_factor c5trades
      = calculate_profit_factor (sellsClassified [] c5trades).1
          (sellsClassified [] c5trades).2 ∧
    (sellsClassified [] c5trades).1.length = 1 :=
  ⟨(C5_profit_factor_amended c5trades (by decide)).2, by
    norm_num +decide [sellsClassified, c5trades, buyQty, buyCost,
      List.filter_cons, List.filter_nil, List.map_cons, List.map_nil,
      List.sum_cons, List.sum_nil]⟩

/-- Claim C4: the code disagrees with the claimed Sharpe formula. On
the per-period returns 0, 0, 2, 2 with risk-free rate 0.02, the sum of
squared deviations is 4 and the standard deviation is 1, so the claimed
formula gives (1 - 0.02) * sqrt 252, while the code divides by
sqrt 4 * sqrt 252 (it omits dividing by the number of returns inside
the square root, although its own comment calls the quantity the
standard deviation of the returns) and subtracts the annual risk-free
rate from the annualized mean, giving (252 - 0.02) / (2 * sqrt 252).
The two values differ. -/
theorem C4_sharpe_ratio_code_bug :
    calculate_sharpe_ratio (2 / 100) [0, 0, 2, 2]
      ≠ sharpe_claimed (2 / 100) [0, 0, 2, 2] := by
  have h252 : (0 : ℝ) < Real.sqrt 252 := Real.sqrt_pos.mpr (by norm_num)
  have hsq : Real.sqrt 252 ^ 2 = 252 := Real.sq_sqrt (by norm_num)
  have hmaps : ((([0, 0, 2, 2] : List ℝ).map
      (fun r => (r - ([0, 0, 2, 2] : List ℝ).sum / (([0, 0, 2, 2] : List ℝ).length : ℝ)) ^ 2)).sum)
        = 4 := by
    norm_num [List.map_cons, List.map_nil, List.sum_cons, List.sum_nil]
  have h4 : Real.sqrt 4 = 2 := by
    rw [show (4 : ℝ) = 2 ^ 2 by norm_num]
    exact Real.sqrt_sq (by norm_num)
  have hcode : calculate_sharpe_ratio (2 / 100) [0, 0, 2, 2]
      = (252 - 2 / 100) / (2 * Real.sqrt 252) := by
    unfold calculate_sharpe_ratio
    rw [if_neg (by simp), hmaps, h4]
    rw [if_neg (by positivity)]
    norm_num
  have hclaimed : sharpe_claimed (2 / 100) [0, 0, 2, 2]
      = (1 - 2 / 100) * Real.sqrt 252 := by
    unfold sharpe_claimed
    rw [if_neg (by simp), hmaps]
    norm_num
  rw [hcode, hclaimed]
  intro h
  rw [div_eq_iff (by positivity : (2 : ℝ) * Real.sqrt 252 ≠ 0)] at h
  nlinarith [hsq]

/-- When every attempt fails, the retry loop started at a given attempt
counter makes exactly the remaining number of attempts, sleeps between
consecutive attempts only, records one failed batch and one retry per
attempt, and clears the buffer. -/
theorem flushLoop_all_fail (insertResult : Nat → Bool) (cfg : BatchConfig)
    (buffer : List TickData) :
    ∀ fuel attempt : Nat,
      attempt < cfg.max_retry_attempts →
      cfg.max_retry_attempts - attempt ≤ fuel →
      (∀ i, i < cfg.max_retry_attempts → insertResult i = false) →
      flushLoop insertResult cfg buffer attempt fuel
        = ⟨[], cfg.max_retry_attempts - attempt,
            List.replicate (cfg.max_retry_attempts - attempt - 1) cfg.retry_delay_ms,
            0, cfg.max_retry_attempts - attempt, 1⟩ := by
  intro fuel
  induction fuel with
  | zero =>
    intro attempt h1 h2 _
    omega
  | succ fuel ih =>
    intro attempt h1 h2 hfail
    simp only [flushLoop]
    rw [hfail attempt h1]
    simp only [Bool.false_eq_true, if_false]
    by_cases hstop : cfg.max_retry_attempts ≤ attempt + 1
    · rw [if_pos hstop]
      rw [show cfg.max_retry_attempts - attempt = 1 by omega]
      simp
    · rw [if_neg hstop]
      rw [ih (attempt + 1) (by omega) (by omega) hfail]
      dsimp only
      rw [show cfg.max_retry_attempts - (attempt + 1) + 1
          = cfg.max_retry_attempts - attempt by omega]
      rw [show cfg.max_retry_attempts - attempt - 1
          = (cfg.max_retry_attempts - (attempt + 1) - 1) + 1 by omega]
      rw [List.replicate_succ]

/-- Claim C7 (amended): for a non-empty buffer, when every batch_insert
attempt fails, flush_batch_with_retry makes exactly max_retry_attempts
calls in total (the first call counts as attempt 1, so there are
max_retry_attempts - 1 retries after it), sleeping retry_delay_ms
between consecutive attempts, then increments total_failed_batches
once, counts one retry attempt per failed call, flushes no batch, and
leaves the buffer empty so processing continues. -/
theorem C7_flush_retry_amended (insertResult : Nat → Bool) (cfg : BatchConfig)
    (buffer : List TickData) (hne : buffer ≠ [])
    (hmax : 1 ≤ cfg.max_retry_attempts)
    (hfail : ∀ i, i < cfg.max_retry_attempts → insertResult i = false) :
    flush_batch_with_retry insertResult cfg buffer
      = ⟨[], cfg.max_retry_attempts,
          List.replicate (cfg.max_retry_attempts - 1) cfg.retry_delay_ms,
          0, cfg.max_retry_attempts, 1⟩ := by
  unfold flush_batch_with_retry
  rw [if_neg hne]
  rw [flushLoop_all_fail insertResult cfg buffer (cfg.max_retry_attempts + 1) 0
    (by omega) (by omega) hfail]
  simp

/-- Claim C7 fails as stated: with the default configuration
(max_retry_attempts = 3) and every attempt failing, the code makes 3
batch_insert calls in total before giving up, not the 1 + 3 calls that
an initial call plus up to max_retry_attempts retries would make. -/
theorem C7_flush_retry_counterexample :
    (flush_batch_with_retry (fun _ => false) BatchConfig.default
        [⟨0, "B", 1, 1, TradeSide.Buy, "t", false⟩]).calls = 3 ∧
    (flush_batch_with_retry (fun _ => false) BatchConfig.default
        [⟨0, "B", 1, 1, TradeSide.Buy, "t", false⟩]).failed_batches_inc = 1 ∧
    (flush_batch_with_retry (fun _ => false) BatchConfig.default
        [⟨0, "B", 1, 1, TradeSide.Buy, "t", false⟩]).calls
      ≠ 1 + BatchConfig.default.max_retry_attempts := by
  refine ⟨by decide, by decide, by decide⟩

/-- A concrete instance of the amended C7: with the default
configuration and every attempt failing, one flush of a one-tick buffer
makes 3 calls, sleeps twice for 1000 ms, fails the batch once and
empties the buffer. -/
theorem C7_flush_retry_amended_witness :
    flush_batch_with_retry (fun _ => false) BatchConfig.default
        [⟨0, "B", 1, 1, TradeSide.Buy, "t", false⟩]
      = ⟨[], 3, [1000, 1000], 0, 3, 1⟩ := by
  have h := C7_flush_retry_amended (fun _ => false) BatchConfig.default
    [⟨0, "B", 1, 1, TradeSide.Buy, "t", false⟩] (by decide) (by decide)
    (fun _ _ => rfl)
  exact h.trans (by decide)

/-- Claim C8: whenever the venue message converts successfully, the
side of the produced tick is Sell exactly when the message has
is_buyer_maker set, and Buy exactly when it does not. -/
theorem C8_side_mapping (fromTimestampMillis : Nat → Option Int)
    (decimalFromStr : String → Option Rat) (msg : BinanceTradeMessage) (tick : TickData)
    (h : convert_binance_to_tick_data fromTimestampMillis decimalFromStr msg
      = Except.ok tick) :
    (tick.side = TradeSide.Sell ↔ msg.is_buyer_maker = true) ∧
    (tick.side = TradeSide.Buy ↔ msg.is_buyer_maker = false) := by
  unfold convert_binance_to_tick_data at h
  repeat' split at h
  all_goals first
  | exact Except.noConfusion h
  | (rename_i hm
     have hlit := Except.ok.inj h
     rw [← hlit]
     simp +decide [hm])

/-- A concrete instance of C8: a message with is_buyer_maker set that
converts successfully yields a Sell tick. -/
theorem C8_side_mapping_witness :
    (⟨1000, "BTCUSDT", 1, 1, TradeSide.Sell, "7", true⟩ : TickData).side
      = TradeSide.Sell := by
  have h := C8_side_mapping (fun n => some (n : Int)) (fun _ => some 1)
    ⟨"BTCUSDT", 7, "1", "1", 1000, true⟩
    ⟨1000, "BTCUSDT", 1, 1, TradeSide.Sell, "7", true⟩ (by decide)
  exact h.1.mpr rfl

/-- Folding the keep-on-ok skip-on-error push over a list is filtering
the successful conversions in order. -/
theorem foldl_push_filterMap {α β : Type} (f : α → Except ExchangeError β) :
    ∀ (l : List α) (acc : List β),
      l.foldl (pushConverted f) acc = acc ++ l.filterMap (fun e => (f e).toOption) := by
  intro l
  induction l with
  | nil => intro acc; simp
  | cons x xs ih =>
    intro acc
    simp only [List.foldl_cons, List.filterMap_cons, pushConverted]
    cases hf : f x with
    | ok td =>
      rw [ih]
      simp [Except.toOption]
    | error e =>
      rw [ih]
      simp [Except.toOption]

/-- Claim C10: once a response array has been received, the historical
fetch converts each entry, skips every entry whose conversion fails
instead of failing the call, and returns Ok with exactly the
successfully converted ticks in response order. -/
theorem C10_fetch_skips_bad_entries (fromTimestampMillis : Nat → Option Int)
    (decimalFromStr : String → Option Rat) (symbol : String)
    (trades : List AggTradeEntry) :
    fetch_historical_trades_api fromTimestampMillis decimalFromStr symbol trades
      = Except.ok (trades.filterMap
          (fun e => (convert_binance_to_tick_data fromTimestampMillis decimalFromStr
            (aggTradeToMessage symbol e)).toOption)) := by
  unfold fetch_historical_trades_api
  rw [foldl_push_filterMap
    (fun e => convert_binance_to_tick_data fromTimestampMillis decimalFromStr
      (aggTradeToMessage symbol e)) trades []]
  simp

/-- Claim C9: for a query whose start time is within the last hour or
absent, get_ticks returns the cache result with no cache pushes exactly
when the cache yields exactly limit ticks, and otherwise returns the
database result and pushes each returned tick into the cache; for a
query older than one hour it goes to the database directly, likewise
pushing the returned ticks. -/
theorem C9_get_ticks_cache_policy (now : Int) (cacheGet : String → Nat → List TickData)
    (dbQuery : TickQuery → List TickData) (q : TickQuery) :
    ((q.start_time = none ∨ ∃ t, q.start_time = some t ∧ now - t ≤ 3600) →
      ((cacheGet q.symbol (min (q.limit.getD DEFAULT_QUERY_LIMIT) MAX_QUERY_LIMIT)).length
          = min (q.limit.getD DEFAULT_QUERY_LIMIT) MAX_QUERY_LIMIT →
        get_ticks now cacheGet dbQuery q
          = (cacheGet q.symbol (min (q.limit.getD DEFAULT_QUERY_LIMIT) MAX_QUERY_LIMIT),
              [])) ∧
      ((cacheGet q.symbol (min (q.limit.getD DEFAULT_QUERY_LIMIT) MAX_QUERY_LIMIT)).length
          ≠ min (q.limit.getD DEFAULT_QUERY_LIMIT) MAX_QUERY_LIMIT →
        get_ticks now cacheGet dbQuery q = (dbQuery q, dbQuery q))) ∧
    (∀ t, q.start_time = some t → 3600 < now - t →
      get_ticks now cacheGet dbQuery q = (dbQuery q, dbQuery q)) := by
  constructor
  · intro hrecent
    have hr : is_recent_query now q = true := by
      unfold is_recent_query
      rcases hrecent with h | ⟨t, ht, hle⟩
      · rw [h]
      · rw [ht]
        exact decide_eq_true hle
    constructor
    · intro hlen
      unfold get_ticks
      rw [hr]
      simp only [if_true]
      rw [if_pos hlen]
    · intro hlen
      unfold get_ticks
      rw [hr]
      simp only [if_true]
      rw [if_neg hlen]
  · intro t ht hold
    have hr : is_recent_query now q = false := by
      unfold is_recent_query
      rw [ht]
      exact decide_eq_false (by omega)
    unfold get_ticks
    rw [hr]
    simp only [Bool.false_eq_true, if_false]

/-- A concrete instance of C9: with no start time, an empty cache and a
one-tick store, get_ticks returns the store result and pushes that tick
into the cache. -/
theorem C9_get_ticks_cache_policy_witness :
    get_ticks 0 (fun _ _ => []) (fun _ => [⟨0, "B", 1, 1, TradeSide.Buy, "t", false⟩])
        ⟨"B", none, none, none, none⟩
      = ([⟨0, "B", 1, 1, TradeSide.Buy, "t", false⟩],
          [⟨0, "B", 1, 1, TradeSide.Buy, "t", false⟩]) := by
  have h := (C9_get_ticks_cache_policy 0 (fun _ _ => [])
    (fun _ => [⟨0, "B", 1, 1, TradeSide.Buy, "t", false⟩])
    ⟨"B", none, none, none, none⟩).1 (Or.inl rfl)
  exact h.2 (by decide)

/-- Claim C1: insert_tick fails with a Validation error exactly when the
symbol is empty, the trade_id is empty, the price is nonpositive or the
quantity is nonpositive (the store statement itself being assumed to
succeed), and a validation failure leaves the store untouched. -/
theorem C1_insert_tick_validation (tick : TickData) (store : List TickData) :
    (isValidationFailure (insert_tick store tick).1 = true ↔
      (tick.symbol = "" ∨ tick.trade_id = "" ∨ tick.price ≤ 0 ∨ tick.quantity ≤ 0)) ∧
    (isValidationFailure (insert_tick store tick).1 = true →
      (insert_tick store tick).2 = store) := by
  unfold insert_tick validate_tick_data
  by_cases h1 : tick.symbol = "" <;>
    by_cases h2 : tick.price ≤ 0 <;>
      by_cases h3 : tick.quantity ≤ 0 <;>
        by_cases h4 : tick.trade_id = "" <;>
          simp [h1, h2, h3, h4, isValidationFailure]

/-- Claim C2: get_recent_ticks_for_backtest returns the min count 10000
most recent ticks of the symbol in ascending (oldest-first,
non-decreasing timestamp) order: the result is sorted ascending, its
length is min (min count 10000) of the number of matching ticks, every
element matches the symbol and comes from the store, together with the
dropped rows it exhausts the matching ticks, and every dropped row is
no newer than every returned tick. -/
theorem C2_recent_ticks_for_backtest (db : List TickData) (symbol : String) (count : Nat) :
    (get_recent_ticks_for_backtest db symbol count).Pairwise
      (fun a b => a.timestamp ≤ b.timestamp) ∧
    (get_recent_ticks_for_backtest db symbol count).length
      = min (min count MAX_QUERY_LIMIT) (matchingTicks db symbol).length ∧
    (∀ t ∈ get_recent_ticks_for_backtest db symbol count, t.symbol = symbol ∧ t ∈ db) ∧
    List.Perm
      ((get_recent_ticks_for_backtest db symbol count).reverse
        ++ (backtestRows db symbol).drop (min count MAX_QUERY_LIMIT))
      (matchingTicks db symbol) ∧
    (∀ d ∈ (backtestRows db symbol).drop (min count MAX_QUERY_LIMIT),
      ∀ r ∈ get_recent_ticks_for_backtest db symbol count, d.timestamp ≤ r.timestamp) := by
  have hsorted : List.Sorted tickDescLE (backtestRows db symbol) :=
    List.sorted_insertionSort tickDescLE (matchingTicks db symbol)
  have hperm : List.Perm (backtestRows db symbol) (matchingTicks db symbol) :=
    List.perm_insertionSort tickDescLE (matchingTicks db symbol)
  have htakedrop :
      (backtestRows db symbol).take (min count MAX_QUERY_LIMIT)
        ++ (backtestRows db symbol).drop (min count MAX_QUERY_LIMIT)
        = backtestRows db symbol :=
    List.take_append_drop _ _
  have htakesorted :
      List.Pairwise tickDescLE ((backtestRows db symbol).take (min count MAX_QUERY_LIMIT)) :=
    List.Pairwise.sublist (List.take_sublist _ _) hsorted
  have hsplit := (List.pairwise_append (R := tickDescLE)).mp (htakedrop ▸ hsorted)
  refine ⟨?_, ?_, ?_, ?_, ?_⟩
  · rw [get_recent_ticks_for_backtest, List.pairwise_reverse]
    exact htakesorted
  · simp [get_recent_ticks_for_backtest, backtestRows,
      List.length_insertionSort, Nat.min_assoc]
  · intro t ht
    rw [get_recent_ticks_for_backtest, List.mem_reverse] at ht
    have hmem : t ∈ matchingTicks db symbol :=
      hperm.mem_iff.mp ((List.take_sublist _ _).mem ht)
    rw [matchingTicks, List.mem_filter] at hmem
    exact ⟨of_decide_eq_true hmem.2, hmem.1⟩
  · rw [get_recent_ticks_for_backtest, List.reverse_reverse, htakedrop]
    exact hperm
  · intro d hd r hr
    rw [get_recent_ticks_for_backtest, List.mem_reverse] at hr
    exact hsplit.2.2 r hr d hd

/-- A concrete instance of C2: against a store of four ticks, three of
them for symbol B at timestamps 1, 3 and 2, asking for the two most
recent B ticks yields two ticks, and the B tick at timestamp 3 is
returned, matches the symbol and comes from the store. -/
theorem C2_recent_ticks_for_backtest_witness :
    (get_recent_ticks_for_backtest
        [⟨1, "B", 1, 1, TradeSide.Buy, "a", false⟩,
         ⟨3, "B", 1, 1, TradeSide.Buy, "b", false⟩,
         ⟨2, "B", 1, 1, TradeSide.Buy, "c", false⟩,
         ⟨5, "A", 1, 1, TradeSide.Buy, "d", false⟩] "B" 2).length
      = min (min 2 MAX_QUERY_LIMIT)
          (matchingTicks
            [⟨1, "B", 1, 1, TradeSide.Buy, "a", false⟩,
             ⟨3, "B", 1, 1, TradeSide.Buy, "b", false⟩,
             ⟨2, "B", 1, 1, TradeSide.Buy, "c", false⟩,
             ⟨5, "A", 1, 1, TradeSide.Buy, "d", false⟩] "B").length ∧
    (⟨3, "B", 1, 1, TradeSide.Buy, "b", false⟩ : TickData).symbol = "B" := by
  have h := C2_recent_ticks_for_backtest
    [⟨1, "B", 1, 1, TradeSide.Buy, "a", false⟩,
     ⟨3, "B", 1, 1, TradeSide.Buy, "b", false⟩,
     ⟨2, "B", 1, 1, TradeSide.Buy, "c", false⟩,
     ⟨5, "A", 1, 1, TradeSide.Buy, "d", false⟩] "B" 2
  refine ⟨h.2.1, ?_⟩
  exact (h.2.2.1 ⟨3, "B", 1, 1, TradeSide.Buy, "b", false⟩ (by decide)).1

/-- A concrete instance of C1: a tick with an empty symbol is rejected
with a Validation error and the store is left unchanged. -/
theorem C1_insert_tick_validation_witness :
    isValidationFailure (insert_tick [] ⟨0, "", 1, 1, TradeSide.Buy, "t1", false⟩).1 = true ∧
    (insert_tick [] ⟨0, "", 1, 1, TradeSide.Buy, "t1", false⟩).2 = [] := by
  have h := C1_insert_tick_validation ⟨0, "", 1, 1, TradeSide.Buy, "t1", false⟩ []
  have hfail : isValidationFailure
      (insert_tick [] ⟨0, "", 1, 1, TradeSide.Buy, "t1", false⟩).1 = true :=
    h.1.mpr (Or.inl rfl)
  exact ⟨hfail, h.2 hfail⟩
